import Mathlib

/-!
Verification of the chip-input interaction engine of the
`email-chip-input` repository (a React chip/tag input component).

The development shallowly embeds the TypeScript core:
  * `src/utils/chip-utils/chip-utils.ts` — delimiter detection and
    delimiter splitting (including the regex escaping and the JS
    character-class semantics of the split pattern),
  * `src/hooks/use-chip-validation/use-chip-validation.ts` — the
    sync/async validator wrapper,
  * `src/hooks/use-suggestions/use-suggestions.ts` — the debounced
    suggestion-search state machine,
  * `src/components/chip-input/use-chip-input-state.ts` — the
    interaction controller (chip creation, insertion cursor, key
    handlers, deletion, suggestion selection).

JavaScript strings are modelled as Lean `String` (a structure over
`List Char`); string utilities that the source uses (`trim`,
`includes`, `split` on a character class, `slice`) are re-implemented
here structurally over the character list so that every definition is
executable and reduces in the kernel.  Promise-valued computations in
the source always settle (every `await` is wrapped in `try`/`catch`),
so they are embedded as total functions; thrown errors and rejected
promises of user-supplied callbacks are represented by explicit
outcome constructors.  `generateId` (a UUID in the source) is modelled
as a fresh-counter supply threaded through the controller state, which
is adequate for the freshness and uniqueness properties stated below.
-/

namespace ChipInput

/-! ## JS string primitives -/

/-- White space recognised by the model of `String.prototype.trim`
(the ASCII subset actually exercised by the component). -/
def isWS (c : Char) : Bool :=
  c = ' ' || c = '\t' || c = '\n' || c = '\r'

/-- Model of `s.trim()` on the character list. -/
def trimChars (l : List Char) : List Char :=
  ((l.dropWhile isWS).reverse.dropWhile isWS).reverse

/-- Model of `s.trim()` on strings. -/
def trimS (s : String) : String :=
  ⟨trimChars s.data⟩

/-- Model of `hay.includes(needle)` (substring containment). -/
def hasSubstring (needle : List Char) : List Char → Bool
  | [] => needle.isPrefixOf []
  | c :: t => needle.isPrefixOf (c :: t) || hasSubstring needle t

/-! ## chip-utils.ts -/

/-- Source constant `DEFAULT_DELIMITERS = [',', ';']`. -/
def DEFAULT_DELIMITERS : List String := [",", ";"]

/-- Source function `containsDelimiter`:
`delimiters.some((delimiter) => input.includes(delimiter))`. -/
def containsDelimiter (input : String) (delimiters : List String) : Bool :=
  delimiters.any fun d => hasSubstring d.data input.data

/-- The characters escaped by the source's
`d.replace(/[.*+?^$\x7b\x7d()|[\]\\]/g, '\\$&')`: dot, star, plus,
question mark, caret, dollar, both curly braces, both parentheses,
vertical bar, both square brackets, backslash. -/
def regexMetaChars : List Char :=
  ['.', '*', '+', '?', '^', '$', Char.ofNat 123, Char.ofNat 125,
   '(', ')', '|', '[', ']', '\\']

/-- Escape one character as the source's `replace` call does. -/
def escapeRegexChar (c : Char) : List Char :=
  if regexMetaChars.contains c then ['\\', c] else [c]

/-- Model of the source expression `d.replace(/[...]/g, '\\$&')`
applied to a whole delimiter string. -/
def escapeRegex (d : String) : String :=
  ⟨d.data.flatMap escapeRegexChar⟩

/-- An item of a JS regular-expression character class: a literal
character (possibly written with a preceding backslash) or an
unescaped dash. -/
inductive ClassItem where
  | lit (c : Char)
  | dash
  deriving DecidableEq, Repr

/-- Parse the body of a JS character class (the text between `[` and
`]`) into its items.  A backslash makes the next character literal
(all characters the escaper above produces after a backslash denote
themselves in JS); an unescaped `-` is a dash item; anything else is a
literal. -/
def classItems : List Char → List ClassItem
  | [] => []
  | [c] =>
    if c = '\\' then [] else if c = '-' then [ClassItem.dash] else [ClassItem.lit c]
  | c :: c2 :: rest =>
    if c = '\\' then ClassItem.lit c2 :: classItems rest
    else if c = '-' then ClassItem.dash :: classItems (c2 :: rest)
    else ClassItem.lit c :: classItems (c2 :: rest)

/-- JS character-class matching: a dash standing between two literal
items denotes the inclusive code-point range; a dash first or last in
the class denotes a literal dash. -/
def classMatches : List ClassItem → Char → Bool
  | ClassItem.lit a :: ClassItem.dash :: ClassItem.lit b :: rest, c =>
      (a ≤ c && c ≤ b) || classMatches rest c
  | ClassItem.lit a :: rest, c => (c = a) || classMatches rest c
  | ClassItem.dash :: rest, c => (c = '-') || classMatches rest c
  | [], _ => false

/-- The character predicate of the split pattern the source builds:
`new RegExp('[' + escapedDelimiters.join('') + ']')`. -/
def splitPattern (delimiters : List String) : Char → Bool :=
  classMatches (classItems (String.join (delimiters.map escapeRegex)).data)

/-- Model of `input.split(regex)` for a regex matching single
characters: cut the character list at every character satisfying the
predicate, keeping empty segments. -/
def splitCharsAux (p : Char → Bool) : List Char → List Char → List (List Char)
  | [], acc => [acc.reverse]
  | c :: t, acc =>
      if p c then acc.reverse :: splitCharsAux p t []
      else splitCharsAux p t (c :: acc)

/-- Model of `input.split(regex)` starting from an empty accumulator. -/
def splitChars (p : Char → Bool) (l : List Char) : List (List Char) :=
  splitCharsAux p l []

/-- Source function `splitByDelimiters`: escape the delimiters, build
a character-class regex from them, split the input on it, trim every
segment and keep only the non-empty ones. -/
def splitByDelimiters (input : String) (delimiters : List String) : List String :=
  ((splitChars (splitPattern delimiters) input.data).map
      fun seg => (⟨trimChars seg⟩ : String)).filter
    fun s => s.length > 0

/-! ## Data model (components/chip-input/types.ts)

Chip ids are opaque unique strings in the source (`generateId`);
here they are natural numbers drawn from a fresh counter. -/

/-- Source interface `Chip<TValue>`: id, value, optional label,
optional validity flag (absent when no validator is configured). -/
structure Chip (V : Type) where
  id : Nat
  value : V
  label : Option String := none
  isValid : Option Bool := none
  deriving DecidableEq, Repr

/-- Source interface `Suggestion<TValue>`. -/
structure Suggestion (V : Type) where
  id : Nat
  value : V
  label : Option String := none
  deriving DecidableEq, Repr

/-- Result of `parseInput`: the `value`/`label` pair of a chip
(`Pick<Chip, 'value' | 'label'>` in the source). -/
structure Parsed (V : Type) where
  value : V
  label : Option String := none
  deriving DecidableEq, Repr

/-! ## use-chip-validation.ts -/

/-- Observable behaviour of one call of a user-supplied validator:
it can return a boolean synchronously, throw synchronously, return a
promise that resolves to a boolean, or return a promise that
rejects. -/
inductive VOutcome where
  | syncOk (b : Bool)
  | syncThrow
  | asyncOk (b : Bool)
  | asyncReject
  deriving DecidableEq, Repr

/-- The hook's `validate` method: resolves `true` when no validator is
configured; otherwise runs the validator inside `try`/`catch`, awaits
a promise result, and resolves `false` on a synchronous throw or a
rejected promise.  Totality of this function is the embedding of
"always resolves, never propagates an exception". -/
def validateAsync {V : Type} (validator : Option (V → VOutcome)) (v : V) : Bool :=
  match validator with
  | none => true
  | some f =>
    match f v with
    | VOutcome.syncOk b => b
    | VOutcome.syncThrow => false
    | VOutcome.asyncOk b => b
    | VOutcome.asyncReject => false

/-- The hook's `validateSync` method: a promise-returning validator is
optimistically treated as valid; a synchronous result or throw is
handled as in `validateAsync`. -/
def validateSync {V : Type} (validator : Option (V → VOutcome)) (v : V) : Bool :=
  match validator with
  | none => true
  | some f =>
    match f v with
    | VOutcome.syncOk b => b
    | VOutcome.syncThrow => false
    | VOutcome.asyncOk _ => true
    | VOutcome.asyncReject => true

/-! ## Controller configuration (props of useChipInputState) -/

/-- The configuration the controller hook receives: parser, optional
validator, equality and normalisation policy, delimiters.  `validate =
none` models an absent `validate` prop, so `hasValidator =
validate.isSome`. -/
structure ChipConfig (V : Type) where
  parseInput : String → Option (Parsed V)
  validate : Option (V → VOutcome) := none
  isEqual : V → V → Bool
  normalize : V → V
  delimiters : List String := DEFAULT_DELIMITERS

/-- Source `hasValidator` from useChipValidation. -/
def ChipConfig.hasValidator {V : Type} (cfg : ChipConfig V) : Bool :=
  cfg.validate.isSome

/-- The source's `defaultParseInput`: trim, reject empty, otherwise
the trimmed string is the value. -/
def defaultParseInput (input : String) : Option (Parsed String) :=
  let trimmed := trimS input
  if trimmed = "" then none else some { value := trimmed }

/-- The controller's defaults: default parser, no validator, strict
equality, identity normalisation, default delimiters. -/
def defaultCfg : ChipConfig String :=
  { parseInput := defaultParseInput
    validate := none
    isEqual := fun a b => a == b
    normalize := fun v => v
    delimiters := DEFAULT_DELIMITERS }

/-! ## Controller state (useChipInputState) -/

/-- The controller's own state: the chip store (held by the host and
round-tripped through `onChange`; folded into the state here), the
insertion cursor `insertPosition` (`null` = append at end), the
pending input buffer, and the fresh-id counter modelling
`generateId`. -/
structure CtrlState (V : Type) where
  chips : List (Chip V) := []
  insertPosition : Option Int := none
  inputValue : String := ""
  nextId : Nat := 0
  deriving DecidableEq, Repr

/-- JS `l.slice(0, e)`: a negative end counts from the end of the
array; out-of-range indices are clamped. -/
def jsSliceEnd {α : Type} (l : List α) (e : Int) : List α :=
  let e' : Int := if e < 0 then (l.length : Int) + e else e
  l.take e'.toNat

/-- JS `l.slice(s)`: a negative start counts from the end of the
array; out-of-range indices are clamped. -/
def jsSliceFrom {α : Type} (l : List α) (s : Int) : List α :=
  let s' : Int := if s < 0 then (l.length : Int) + s else s
  l.drop s'.toNat

/-- Source `createChip`: parse the input (rejecting `null`), drop the
candidate when some chip of the existing store is normalized-equal to
it, otherwise build a chip with a fresh id, the parsed value/label,
and the validation flag (absent when no validator is configured).
`nid` is the fresh id `generateId()` yields for this chip. -/
def createChip {V : Type} (cfg : ChipConfig V) (existing : List (Chip V))
    (nid : Nat) (input : String) : Option (Chip V) :=
  match cfg.parseInput input with
  | none => none
  | some parsed =>
    let normalizedValue := cfg.normalize parsed.value
    if existing.any fun chip => cfg.isEqual (cfg.normalize chip.value) normalizedValue then
      none
    else
      some { id := nid
             value := parsed.value
             label := parsed.label
             isValid :=
               if cfg.hasValidator then some (validateAsync cfg.validate parsed.value)
               else none }

/-- The `for (const val of values)` loop of `addChipsFromInput`: run
`createChip` on each candidate in source order, collecting the chips
that survive.  The duplicate check inside `createChip` consults only
`existing` (the chip store at the start of the operation), exactly as
in the source, where `createChip` closes over the `value` prop.  The
id counter advances only when a chip is actually created. -/
def collectChips {V : Type} (cfg : ChipConfig V) (existing : List (Chip V)) :
    Nat → List String → List (Chip V)
  | _, [] => []
  | nid, v :: rest =>
    match createChip cfg existing nid v with
    | some c => c :: collectChips cfg existing (nid + 1) rest
    | none => collectChips cfg existing nid rest

/-- Candidate tokens of one commit: split when the input contains a
delimiter, otherwise the raw input as the only candidate. -/
def tokensOf {V : Type} (cfg : ChipConfig V) (input : String) : List String :=
  if containsDelimiter input cfg.delimiters then splitByDelimiters input cfg.delimiters
  else [input]

/-- Source `addChipsFromInput`: collect the surviving chips; when at
least one survives, splice them into the store at the insertion
cursor (`insertPosition ?? value.length`), emit the new store through
`onChange` (the second component; `none` = `onChange` not called),
and advance a non-null cursor by the number of chips inserted; in all
cases clear the pending input buffer. -/
def addChipsFromInput {V : Type} (cfg : ChipConfig V) (s : CtrlState V)
    (input : String) : CtrlState V × Option (List (Chip V)) :=
  let values := tokensOf cfg input
  let newChips := collectChips cfg s.chips s.nextId values
  if newChips.length > 0 then
    let insertAt : Int := s.insertPosition.getD (s.chips.length : Int)
    let newValue := jsSliceEnd s.chips insertAt ++ newChips ++ jsSliceFrom s.chips insertAt
    ({ chips := newValue
       insertPosition := s.insertPosition.map fun p => p + (newChips.length : Int)
       inputValue := ""
       nextId := s.nextId + newChips.length },
     some newValue)
  else
    ({ s with inputValue := "" }, none)

/-- Source `handleChipDelete`: replace the store by the chips whose
id differs; `onChange` is invoked unconditionally and the insertion
cursor is left untouched. -/
def handleChipDelete {V : Type} (s : CtrlState V) (cid : Nat) :
    CtrlState V × Option (List (Chip V)) :=
  let newValue := s.chips.filter fun chip => chip.id ≠ cid
  ({ s with chips := newValue }, some newValue)

/-- Source `processSuggestionSelection`: drop the suggestion when it
is normalized-equal to an existing chip; otherwise build a fresh chip
from it, splice it at the insertion cursor and advance a non-null
cursor by one; in all cases clear the pending input buffer. -/
def processSuggestionSelection {V : Type} (cfg : ChipConfig V) (s : CtrlState V)
    (sug : Suggestion V) : CtrlState V × Option (List (Chip V)) :=
  let normalizedValue := cfg.normalize sug.value
  if s.chips.any fun chip => cfg.isEqual (cfg.normalize chip.value) normalizedValue then
    ({ s with inputValue := "" }, none)
  else
    let chip : Chip V :=
      { id := s.nextId
        value := sug.value
        label := sug.label
        isValid :=
          if cfg.hasValidator then some (validateAsync cfg.validate sug.value) else none }
    let insertAt : Int := s.insertPosition.getD (s.chips.length : Int)
    let newValue := jsSliceEnd s.chips insertAt ++ [chip] ++ jsSliceFrom s.chips insertAt
    ({ chips := newValue
       insertPosition := s.insertPosition.map fun p => p + 1
       inputValue := ""
       nextId := s.nextId + 1 },
     some newValue)

/-! ## Key handlers (useChipInputState helpers)

The `isAtStart`/`isAtEnd` flags are the caret conditions computed
from the DOM selection in `handleKeyDown` and passed in through the
handler context. -/

/-- Source `computeLeftPosition`. -/
def computeLeftPosition (currentPosition : Option Int) (chipsLength : Nat) : Int :=
  match currentPosition with
  | none => (chipsLength : Int) - 1
  | some p => if p > 0 then p - 1 else p

/-- Source `computeRightPosition`. -/
def computeRightPosition (currentPosition : Int) (chipsLength : Nat) : Option Int :=
  if currentPosition < (chipsLength : Int) - 1 then some (currentPosition + 1) else none

/-- Source `handleArrowLeftKey`: only when the caret is at the start
of the buffer and chips exist. -/
def handleArrowLeftKey {V : Type} (s : CtrlState V) (isAtStart : Bool) : CtrlState V :=
  if !isAtStart || s.chips.isEmpty then s
  else { s with insertPosition := some (computeLeftPosition s.insertPosition s.chips.length) }

/-- Source `handleArrowRightKey`: only when the caret is at the end
of the buffer and the cursor is not null. -/
def handleArrowRightKey {V : Type} (s : CtrlState V) (isAtEnd : Bool) : CtrlState V :=
  match s.insertPosition with
  | none => s
  | some p =>
    if !isAtEnd then s
    else { s with insertPosition := computeRightPosition p s.chips.length }

/-- Source `handleBackspaceKey`: with the caret at the start, an empty
buffer and chips present, delete the chip before the cursor (the last
chip when the cursor is null) through `handleChipDelete`, then
decrement a positive cursor. -/
def handleBackspaceKey {V : Type} (s : CtrlState V) (isAtStart : Bool) :
    CtrlState V × Option (List (Chip V)) :=
  if !isAtStart || s.inputValue ≠ "" || s.chips.isEmpty then (s, none)
  else
    let deleteIndex : Int :=
      match s.insertPosition with
      | none => (s.chips.length : Int) - 1
      | some p => p - 1
    if deleteIndex ≥ 0 then
      match s.chips[deleteIndex.toNat]? with
      | none => (s, none)
      | some chipToDelete =>
        let r := handleChipDelete s chipToDelete.id
        let s' :=
          match s.insertPosition with
          | some p => if p > 0 then { r.1 with insertPosition := some (p - 1) } else r.1
          | none => r.1
        (s', r.2)
    else (s, none)

/-- Source `handleSubmitKey` (Enter/Tab): commit the buffer when its
trimmed text is non-empty.  (The accompanying `closeSuggestions` call
only touches the suggestion machine and is modelled there.) -/
def handleSubmitKey {V : Type} (cfg : ChipConfig V) (s : CtrlState V) :
    CtrlState V × Option (List (Chip V)) :=
  if trimS s.inputValue = "" then (s, none)
  else addChipsFromInput cfg s s.inputValue

/-- Source `handleEscapeKey`, controller part: when the dropdown is
visible it only closes the suggestions (no cursor change); otherwise
a non-null cursor collapses to null. -/
def handleEscapeKey {V : Type} (s : CtrlState V) (suggestionsVisible : Bool) : CtrlState V :=
  if suggestionsVisible then s
  else
    match s.insertPosition with
    | none => s
    | some _ => { s with insertPosition := none }

/-- Source `handleDelimiterKey`: commit the buffer when the pressed
key is a configured delimiter and the trimmed buffer is non-empty. -/
def handleDelimiterKey {V : Type} (cfg : ChipConfig V) (s : CtrlState V)
    (key : String) : CtrlState V × Option (List (Chip V)) :=
  if !(cfg.delimiters.contains key) || trimS s.inputValue = "" then (s, none)
  else addChipsFromInput cfg s s.inputValue

/-- JS `Array.prototype.findIndex`: the index of the first element
satisfying the predicate, `-1` when there is none. -/
def jsFindIndex {α : Type} (p : α → Bool) : List α → Int
  | [] => -1
  | a :: t =>
    if p a then 0
    else
      let r := jsFindIndex p t
      if r < 0 then -1 else r + 1

/-- Source `handleChipClick`: move the cursor to the clicked chip's
index when the id is found (`findIndex` is `-1` otherwise). -/
def handleChipClick {V : Type} (s : CtrlState V) (cid : Nat) : CtrlState V :=
  let index := jsFindIndex (fun chip => chip.id = cid) s.chips
  if index ≠ -1 then { s with insertPosition := some index } else s

/-- Source `handleContainerClick` / `handleContainerKeyDown`: a click
(or Enter/Space) directly on the container collapses the cursor to
null. -/
def handleContainerClick {V : Type} (s : CtrlState V) (targetIsContainer : Bool) :
    CtrlState V :=
  if targetIsContainer then { s with insertPosition := none } else s

/-- Source `handleInputChange`: text containing a delimiter is
committed immediately; otherwise it becomes the new buffer (and feeds
the suggestion search, modelled in the suggestion machine). -/
def handleInputChange {V : Type} (cfg : ChipConfig V) (s : CtrlState V)
    (newValue : String) : CtrlState V × Option (List (Chip V)) :=
  if containsDelimiter newValue cfg.delimiters then addChipsFromInput cfg s newValue
  else ({ s with inputValue := newValue }, none)

/-- Source `handlePaste`: when the pasted text has a delimiter or a
newline, split it by delimiters plus newline and commit the joined
segments (joined by the first delimiter; JS `join(undefined)` falls
back to a comma). -/
def handlePaste {V : Type} (cfg : ChipConfig V) (s : CtrlState V)
    (pastedText : String) : CtrlState V × Option (List (Chip V)) :=
  let hasDelim := containsDelimiter pastedText cfg.delimiters
  let hasNewline := hasSubstring ['\n'] pastedText.data
  if hasDelim || hasNewline then
    let allDelimiters := cfg.delimiters ++ ["\n"]
    let values := splitByDelimiters pastedText allDelimiters
    if values.length > 0 then
      addChipsFromInput cfg s (String.intercalate (cfg.delimiters.headD ",") values)
    else (s, none)
  else (s, none)

/-- Source `handleBlur`: ignored during a suggestion-selection
gesture or when focus stays inside the container; otherwise a
non-empty trimmed buffer is committed. -/
def handleBlur {V : Type} (cfg : ChipConfig V) (s : CtrlState V)
    (isSelecting insideContainer : Bool) : CtrlState V × Option (List (Chip V)) :=
  if isSelecting || insideContainer then (s, none)
  else if trimS s.inputValue ≠ "" then addChipsFromInput cfg s s.inputValue
  else (s, none)

/-! ## Controller events -/

/-- One controller-level operation.  Keyboard events carry the caret
flags of the handler context; `escapeKey` carries the dropdown
visibility the controller consults.  Keys consumed earlier by the
suggestion machine's `handleKeyDown` never reach these handlers and
leave the controller state unchanged, so they need no event here. -/
inductive CtrlEvent (V : Type) where
  | arrowLeft (isAtStart : Bool)
  | arrowRight (isAtEnd : Bool)
  | backspace (isAtStart : Bool)
  | submitKey
  | escapeKey (suggestionsVisible : Bool)
  | delimiterKey (key : String)
  | chipClick (cid : Nat)
  | chipDelete (cid : Nat)
  | containerClick (targetIsContainer : Bool)
  | suggestionSelect (sug : Suggestion V)
  | inputChange (text : String)
  | pasteEv (text : String)
  | blurEv (isSelecting insideContainer : Bool)

/-- Dispatch one controller event to the handler embedded from the
source; the second component is the chip store emitted through
`onChange` (`none` = not invoked). -/
def ctrlStep {V : Type} (cfg : ChipConfig V) (s : CtrlState V) :
    CtrlEvent V → CtrlState V × Option (List (Chip V))
  | CtrlEvent.arrowLeft b => (handleArrowLeftKey s b, none)
  | CtrlEvent.arrowRight b => (handleArrowRightKey s b, none)
  | CtrlEvent.backspace b => handleBackspaceKey s b
  | CtrlEvent.submitKey => handleSubmitKey cfg s
  | CtrlEvent.escapeKey v => (handleEscapeKey s v, none)
  | CtrlEvent.delimiterKey k => handleDelimiterKey cfg s k
  | CtrlEvent.chipClick cid => (handleChipClick s cid, none)
  | CtrlEvent.chipDelete cid => handleChipDelete s cid
  | CtrlEvent.containerClick b => (handleContainerClick s b, none)
  | CtrlEvent.suggestionSelect sug => processSuggestionSelection cfg s sug
  | CtrlEvent.inputChange t => handleInputChange cfg s t
  | CtrlEvent.pasteEv t => handlePaste cfg s t
  | CtrlEvent.blurEv a b => handleBlur cfg s a b

/-! ## Well-formedness of the controller state -/

/-- The insertion-cursor range condition: null, or an integer between
0 and the number of chips. -/
def posOk (pos : Option Int) (n : Nat) : Bool :=
  match pos with
  | none => true
  | some p => decide (0 ≤ p) && decide (p ≤ (n : Int))

/-- Well-formed controller state: cursor in range, chip ids distinct,
and every id below the fresh counter. -/
def WF {V : Type} (s : CtrlState V) : Prop :=
  posOk s.insertPosition s.chips.length = true ∧
  (s.chips.map Chip.id).Nodup ∧
  ∀ c ∈ s.chips, c.id < s.nextId

instance {V : Type} (s : CtrlState V) : Decidable (WF s) := by
  unfold WF; infer_instance

/-! ## Suggestion machine (use-suggestions.ts) -/

/-- State of the suggestion engine.  `pendingTimer` is the debounce
timer together with the trimmed query its callback captured (the
source keeps at most one timer alive: each `search` call clears the
previous one).  `inFlight` are the captured queries of `onSearch`
calls that have been issued and not yet settled; the abort controller
the source creates is never handed to `onSearch`, so superseding a
request has no effect on it beyond the `lastQuery` comparison at
resolution time. -/
structure SugState (V : Type) where
  suggestions : List (Suggestion V) := []
  isLoading : Bool := false
  highlightedIndex : Int := -1
  isVisible : Bool := false
  lastQuery : String := ""
  pendingTimer : Option String := none
  inFlight : List String := []
  deriving DecidableEq, Repr

/-- Source `search`: clear the pending debounce timer, record the
trimmed query as the latest issued, and either reset to the idle
state (empty trimmed query or no search function) or start a new
debounce timer for it. -/
def sugSearch {V : Type} (hasOnSearch : Bool) (s : SugState V) (query : String) :
    SugState V :=
  let trimmedQuery := trimS query
  if trimmedQuery = "" || !hasOnSearch then
    { s with pendingTimer := none, lastQuery := trimmedQuery,
             suggestions := [], isVisible := false, highlightedIndex := -1 }
  else
    { s with pendingTimer := some trimmedQuery, lastQuery := trimmedQuery }

/-- Expiry of the debounce timer: issue the `onSearch` call for the
captured query (returned as the emitted invocation) and set the
loading flag. -/
def sugTimerFire {V : Type} (s : SugState V) : SugState V × List String :=
  match s.pendingTimer with
  | none => (s, [])
  | some q =>
    ({ s with pendingTimer := none, isLoading := true, inFlight := q :: s.inFlight },
     [q])

/-- Successful resolution of the in-flight request tagged `tag`: the
result mutates the suggestion list, visibility and highlight only when
`tag` is still the latest issued query; the loading flag clears in
either case. -/
def sugResolveOk {V : Type} (s : SugState V) (tag : String)
    (results : List (Suggestion V)) : SugState V :=
  if s.inFlight.contains tag then
    if s.lastQuery = tag then
      { s with inFlight := s.inFlight.erase tag, isLoading := false,
               suggestions := results,
               isVisible := results.length > 0,
               highlightedIndex := if results.length > 0 then 0 else -1 }
    else
      { s with inFlight := s.inFlight.erase tag, isLoading := false }
  else s

/-- Rejected resolution of the in-flight request tagged `tag`: the
`catch` block reports non-abort errors (no state effect) and then
unconditionally resets suggestions, visibility and highlight; the
`finally` block clears the loading flag. -/
def sugResolveErr {V : Type} (s : SugState V) (tag : String) (_isAbort : Bool) :
    SugState V :=
  if s.inFlight.contains tag then
    { s with inFlight := s.inFlight.erase tag, isLoading := false,
             suggestions := [], isVisible := false, highlightedIndex := -1 }
  else s

/-- Source `close`: hide the dropdown and clear the highlight,
keeping the suggestion list. -/
def sugClose {V : Type} (s : SugState V) : SugState V :=
  { s with isVisible := false, highlightedIndex := -1 }

/-- Source `clear`: additionally empty the list and reset the
last-seen query. -/
def sugClear {V : Type} (s : SugState V) : SugState V :=
  { s with suggestions := [], isVisible := false, highlightedIndex := -1,
           lastQuery := "" }

/-- One event of the suggestion machine: a `search` call, the expiry
of the debounce timer, or the settlement of an issued request. -/
inductive SugEvent (V : Type) where
  | searchCall (q : String)
  | timerFire
  | resolveOk (tag : String) (results : List (Suggestion V))
  | resolveErr (tag : String) (isAbort : Bool)

/-- Step the suggestion machine by one event, emitting the list of
`onSearch` invocations the event causes. -/
def sugStep {V : Type} (hasOnSearch : Bool) (s : SugState V) :
    SugEvent V → SugState V × List String
  | SugEvent.searchCall q => (sugSearch hasOnSearch s q, [])
  | SugEvent.timerFire => sugTimerFire s
  | SugEvent.resolveOk t r => (sugResolveOk s t r, [])
  | SugEvent.resolveErr t a => (sugResolveErr s t a, [])

/-- Run a sequence of suggestion-machine events, concatenating the
emitted `onSearch` invocations. -/
def sugRun {V : Type} (hasOnSearch : Bool) (s : SugState V) :
    List (SugEvent V) → SugState V × List String
  | [] => (s, [])
  | e :: es =>
    let r := sugStep hasOnSearch s e
    let r' := sugRun hasOnSearch r.1 es
    (r'.1, r.2 ++ r'.2)

/-! ## Combined controller + suggestion operations -/

/-- The suggestion machine's `handleSelect` wired to the controller
(`onSelect = handleSuggestionSelectInternal`): process the selection
in the controller, then clear the suggestion list, visibility and
highlight (selecting always closes the dropdown). -/
def handleSelectCombined {V : Type} (cfg : ChipConfig V) (s : CtrlState V)
    (g : SugState V) (sug : Suggestion V) :
    (CtrlState V × SugState V) × Option (List (Chip V)) :=
  let r := processSuggestionSelection cfg s sug
  ((r.1, { g with suggestions := [], isVisible := false, highlightedIndex := -1 }), r.2)

/-- The combined key-down path for Escape: the suggestion machine's
`handleKeyDown` consumes the key (closing the dropdown) when the
dropdown is visible and non-empty; otherwise the controller's
`handleEscapeKey` runs, which closes the suggestions when the dropdown
is visible and else collapses the cursor. -/
def escapeKeyDown {V : Type} (s : CtrlState V) (g : SugState V) :
    CtrlState V × SugState V :=
  if g.isVisible && !g.suggestions.isEmpty then
    (s, sugClose g)
  else if g.isVisible then
    (handleEscapeKey s true, sugClose g)
  else
    (handleEscapeKey s false, g)

/-! ## Statement-side abbreviations and specification models -/

/-- The condition under which `createChip` drops a candidate token
(for any fresh id): the parser rejects it, or it is normalized-equal
to a chip of the existing store. -/
def tokenDropped {V : Type} (cfg : ChipConfig V) (existing : List (Chip V))
    (tok : String) : Bool :=
  match cfg.parseInput tok with
  | none => true
  | some parsed =>
    existing.any fun chip =>
      cfg.isEqual (cfg.normalize chip.value) (cfg.normalize parsed.value)

/-- Run a sequence of controller events, keeping the state reached
(emissions are applied to the store inside `ctrlStep` already). -/
def ctrlRun {V : Type} (cfg : ChipConfig V) (s : CtrlState V) :
    List (CtrlEvent V) → CtrlState V
  | [] => s
  | e :: es => ctrlRun cfg (ctrlStep cfg s e).1 es

/-- Specification model of the fail-closed validation contract
(spec 4.3): a synchronous or awaited boolean is returned as is, a
throw or rejection yields `false`. -/
def specFailClosed : VOutcome → Bool
  | VOutcome.syncOk b => b
  | VOutcome.syncThrow => false
  | VOutcome.asyncOk b => b
  | VOutcome.asyncReject => false

/-- Specification model of delimiter splitting (spec 4.1, stated for
single-character delimiters): cut the input at every occurrence of a
delimiter character, trim each segment, and discard empty segments.
Used to compare `splitByDelimiters` against the spec's words. -/
def splitSpec (input : String) (delimiters : List String) : List String :=
  ((splitChars (fun c => delimiters.any fun d => d.data = [c]) input.data).map
      fun seg => (⟨trimChars seg⟩ : String)).filter
    fun s => s.length > 0

/-! ## Helper lemmas -/

/-- Running only `search` calls emits no `onSearch` invocation and
folds `sugSearch` over the queries. -/
theorem sugRun_searchCalls {V : Type} (qs : List String) (s : SugState V) :
    sugRun true s (qs.map SugEvent.searchCall)
      = (qs.foldl (fun t q => sugSearch true t q) s, []) := by
  induction qs generalizing s with
  | nil => rfl
  | cons q qs ih => simpa [sugRun, sugStep] using ih (sugSearch true s q)

/-- Runs compose over concatenation of event lists. -/
theorem sugRun_append {V : Type} (h : Bool) (s : SugState V)
    (es1 es2 : List (SugEvent V)) :
    sugRun h s (es1 ++ es2)
      = ((sugRun h (sugRun h s es1).1 es2).1,
         (sugRun h s es1).2 ++ (sugRun h (sugRun h s es1).1 es2).2) := by
  induction es1 generalizing s with
  | nil => simp [sugRun]
  | cons e es ih => simp [sugRun, ih]

/-- A `search` call for a query with non-empty trim (with a search
function configured) leaves exactly that query's debounce timer
pending, whatever the previous state. -/
theorem sugSearch_pendingTimer {V : Type} (t : SugState V) (q : String)
    (hq : ¬ trimS q = "") :
    (sugSearch true t q).pendingTimer = some (trimS q) := by
  simp [sugSearch, hq]

/-- If every candidate token of an operation is dropped, the chip
collection loop yields nothing. -/
theorem collectChips_nil_of_dropped {V : Type} (cfg : ChipConfig V)
    (existing : List (Chip V)) (vals : List String) (nid : Nat)
    (h : ∀ tok ∈ vals, tokenDropped cfg existing tok = true) :
    collectChips cfg existing nid vals = [] := by
  induction vals generalizing nid with
  | nil => rfl
  | cons v rest ih =>
    have hv := h v (by simp)
    have hc : createChip cfg existing nid v = none := by
      unfold tokenDropped at hv
      cases hp : cfg.parseInput v with
      | none => simp [createChip, hp]
      | some parsed =>
        rw [hp] at hv
        have hv' : (existing.any fun chip =>
            cfg.isEqual (cfg.normalize chip.value) (cfg.normalize parsed.value))
              = true := hv
        simp [createChip, hp, hv']
    simp only [collectChips, hc]
    exact ih nid fun tok ht => h tok (by simp [ht])

/-! ## Claim C5 -/

/-- Claim C5: the async validate operation always resolves (it is a
total function here) and maps its predicate's behaviour fail-closed:
a thrown error or rejected promise resolves to `false`, a boolean
result (sync or awaited) resolves to that boolean; with no predicate
configured it resolves to `true` and `createChip` leaves the chip's
`isValid` field absent rather than `true`. -/
theorem spec_C5_validate_fail_closed {V : Type} (cfg : ChipConfig V)
    (f : V → VOutcome) (v : V) :
    validateAsync (some f) v = specFailClosed (f v) ∧
    validateAsync (none : Option (V → VOutcome)) v = true ∧
    ∀ (existing : List (Chip V)) (nid : Nat) (input : String),
      ((createChip { cfg with validate := none } existing nid input).all
        fun c => c.isValid.isNone) = true := by
  refine ⟨?_, rfl, ?_⟩
  · cases hfv : f v <;> simp [validateAsync, specFailClosed, hfv]
  · intro existing nid input
    unfold createChip
    cases hp : ({ cfg with validate := none } : ChipConfig V).parseInput input with
    | none => rfl
    | some parsed =>
      by_cases hd :
          (existing.any fun chip =>
            cfg.isEqual (cfg.normalize chip.value) (cfg.normalize parsed.value)) = true
      · simp [hd]
      · simp [hd, ChipConfig.hasValidator, Option.all]

/-! ## Claim C2 -/

/-- Claim C2 counterexample: the request for query a is issued, then
superseded by query b, whose results are showing; when the stale
request for a finally rejects (a non-abort error), its resolution
still mutates the suggestion state, wiping b's results and hiding the
dropdown — contradicting the claim that a superseded request's
resolution (success or rejection) never mutates suggestion state. -/
theorem spec_C2_counterexample :
    ((sugRun true ({ } : SugState String)
        [SugEvent.searchCall "a", SugEvent.timerFire,
         SugEvent.searchCall "b", SugEvent.timerFire,
         SugEvent.resolveOk "b" [{ id := 1, value := "b1" }]]).1.suggestions
      = [{ id := 1, value := "b1" }]) ∧
    ((sugRun true ({ } : SugState String)
        [SugEvent.searchCall "a", SugEvent.timerFire,
         SugEvent.searchCall "b", SugEvent.timerFire,
         SugEvent.resolveOk "b" [{ id := 1, value := "b1" }]]).1.isVisible = true) ∧
    ((sugRun true ({ } : SugState String)
        [SugEvent.searchCall "a", SugEvent.timerFire,
         SugEvent.searchCall "b", SugEvent.timerFire,
         SugEvent.resolveOk "b" [{ id := 1, value := "b1" }],
         SugEvent.resolveErr "a" false]).1.suggestions = []) ∧
    ((sugRun true ({ } : SugState String)
        [SugEvent.searchCall "a", SugEvent.timerFire,
         SugEvent.searchCall "b", SugEvent.timerFire,
         SugEvent.resolveOk "b" [{ id := 1, value := "b1" }],
         SugEvent.resolveErr "a" false]).1.isVisible = false) := by
  decide

/-- Claim C2 amended: only a superseded request's successful
resolution is discarded without touching the suggestion list,
dropdown visibility or highlight; a superseded request's rejection
(non-abort) still resets all three to empty, hidden, -1. -/
theorem spec_C2_amended {V : Type} (s : SugState V) (tag : String)
    (results : List (Suggestion V)) (isAbort : Bool)
    (h : ¬ s.lastQuery = tag) :
    ((sugResolveOk s tag results).suggestions = s.suggestions ∧
     (sugResolveOk s tag results).isVisible = s.isVisible ∧
     (sugResolveOk s tag results).highlightedIndex = s.highlightedIndex) ∧
    (s.inFlight.contains tag = true →
      (sugResolveErr s tag isAbort).suggestions = [] ∧
      (sugResolveErr s tag isAbort).isVisible = false ∧
      (sugResolveErr s tag isAbort).highlightedIndex = -1) := by
  constructor
  · unfold sugResolveOk
    by_cases hc : s.inFlight.contains tag = true
    · rw [if_pos hc, if_neg h]
      exact ⟨rfl, rfl, rfl⟩
    · rw [if_neg hc]
      exact ⟨rfl, rfl, rfl⟩
  · intro hf
    unfold sugResolveErr
    rw [if_pos hf]
    exact ⟨rfl, rfl, rfl⟩

/-- Claim C2 amended, witness at a concrete stale rejection. -/
theorem spec_C2_amended_witness :
    (¬ ({ lastQuery := "b", inFlight := ["a"],
          suggestions := [{ id := 1, value := "b1" }], isVisible := true,
          highlightedIndex := 0 } : SugState String).lastQuery = "a") ∧
    (sugResolveOk
        ({ lastQuery := "b", inFlight := ["a"],
           suggestions := [{ id := 1, value := "b1" }], isVisible := true,
           highlightedIndex := 0 } : SugState String) "a" []).suggestions
      = [{ id := 1, value := "b1" }] :=
  ⟨by decide,
   (spec_C2_amended
      ({ lastQuery := "b", inFlight := ["a"],
         suggestions := [{ id := 1, value := "b1" }], isVisible := true,
         highlightedIndex := 0 } : SugState String) "a" [] false (by decide)).1.1⟩

/-! ## Claim C6 -/

/-- Claim C6: search calls in quick succession (no debounce expiry in
between) each cancel the pending timer, so the whole burst plus the
one surviving expiry invokes the external search function exactly
once, with the trimmed final query; and a call whose trimmed query is
empty, or made with no search function configured, transitions
immediately to the idle state (suggestions empty, dropdown hidden,
highlight -1, no timer) with no invocation. -/
theorem spec_C6_debounce_coalescing {V : Type} (s : SugState V) (qs : List String)
    (qlast : String) (hOS : Bool) (q : String)
    (hlast : ¬ trimS qlast = "") :
    (sugRun true s
        ((qs ++ [qlast]).map SugEvent.searchCall ++ [SugEvent.timerFire])).2
      = [trimS qlast] ∧
    (trimS q = "" ∨ hOS = false →
      sugStep hOS s (SugEvent.searchCall q)
        = ({ s with pendingTimer := none, lastQuery := trimS q, suggestions := [],
                    isVisible := false, highlightedIndex := -1 }, [])) := by
  constructor
  · rw [sugRun_append, sugRun_searchCalls]
    have hp := sugSearch_pendingTimer
      (List.foldl (fun t q => sugSearch true t q) s qs) qlast hlast
    simp [sugRun, sugStep, sugTimerFire, hp]
  · intro hq
    unfold sugStep sugSearch
    rcases hq with hq | hq <;> simp [hq]

/-- Claim C6 witness: the spec's own scenario (search "a", "al",
"ali" within the window yields one invocation with "ali") and an
empty-query call resetting to idle. -/
theorem spec_C6_witness :
    ((¬ trimS "ali" = "") ∧
      (sugRun true ({ } : SugState String)
          ((["a", "al"] ++ ["ali"]).map SugEvent.searchCall ++ [SugEvent.timerFire])).2
        = [trimS "ali"]) ∧
    ((trimS "" = "" ∨ false = false) ∧
      sugStep false ({ } : SugState String) (SugEvent.searchCall "")
        = ({ ({ } : SugState String) with
              pendingTimer := none, lastQuery := trimS "",
              suggestions := [], isVisible := false, highlightedIndex := -1 }, [])) :=
  ⟨⟨by decide,
    (spec_C6_debounce_coalescing ({ } : SugState String) ["a", "al"] "ali" false ""
      (by decide)).1⟩,
   ⟨Or.inl (by decide),
    (spec_C6_debounce_coalescing ({ } : SugState String) ["a", "al"] "ali" false ""
      (by decide)).2 (Or.inl (by decide))⟩⟩

/-! ## Claim C8 -/

/-- Claim C8: a commit in which every candidate token is dropped (the
parser rejects it or it is a duplicate of an existing chip) never
invokes the `onChange` replacement callback — the chip store and the
insertion cursor are untouched — yet the pending input buffer is
still cleared. -/
theorem spec_C8_all_dropped_frame {V : Type} (cfg : ChipConfig V) (s : CtrlState V)
    (input : String)
    (h : ∀ tok ∈ tokensOf cfg input, tokenDropped cfg s.chips tok = true) :
    (addChipsFromInput cfg s input).2 = none ∧
    (addChipsFromInput cfg s input).1.chips = s.chips ∧
    (addChipsFromInput cfg s input).1.insertPosition = s.insertPosition ∧
    (addChipsFromInput cfg s input).1.inputValue = "" := by
  have hnil := collectChips_nil_of_dropped cfg s.chips (tokensOf cfg input) s.nextId h
  simp [addChipsFromInput, hnil]

/-- Claim C8 witness: committing "x, x" against a store already
holding "x" drops both candidates, leaves the store and cursor
unchanged, and clears the buffer. -/
theorem spec_C8_witness :
    (∀ tok ∈ tokensOf defaultCfg "x, x",
      tokenDropped defaultCfg
        ({ chips := [{ id := 0, value := "x" }], insertPosition := some 1,
           inputValue := "x, x", nextId := 1 } : CtrlState String).chips tok = true) ∧
    (addChipsFromInput defaultCfg
        ({ chips := [{ id := 0, value := "x" }], insertPosition := some 1,
           inputValue := "x, x", nextId := 1 } : CtrlState String) "x, x").2 = none :=
  ⟨by decide,
   (spec_C8_all_dropped_frame defaultCfg
      ({ chips := [{ id := 0, value := "x" }], insertPosition := some 1,
         inputValue := "x, x", nextId := 1 } : CtrlState String) "x, x" (by decide)).1⟩

/-! ## Claim C9 -/

/-- Claim C9: selecting a suggestion normalized-equal to an existing
chip creates no chip and never invokes `onChange` — store and cursor
unchanged — while the pending buffer is still cleared and the
dropdown still closes (list emptied, hidden, highlight reset). -/
theorem spec_C9_duplicate_selection_noop {V : Type} (cfg : ChipConfig V)
    (s : CtrlState V) (g : SugState V) (sug : Suggestion V)
    (hdup : (s.chips.any fun chip =>
        cfg.isEqual (cfg.normalize chip.value) (cfg.normalize sug.value)) = true) :
    (handleSelectCombined cfg s g sug).2 = none ∧
    (handleSelectCombined cfg s g sug).1.1.chips = s.chips ∧
    (handleSelectCombined cfg s g sug).1.1.insertPosition = s.insertPosition ∧
    (handleSelectCombined cfg s g sug).1.1.inputValue = "" ∧
    (handleSelectCombined cfg s g sug).1.2.suggestions = [] ∧
    (handleSelectCombined cfg s g sug).1.2.isVisible = false ∧
    (handleSelectCombined cfg s g sug).1.2.highlightedIndex = -1 := by
  unfold handleSelectCombined processSuggestionSelection
  simp [hdup]

/-- Claim C9 witness: selecting the suggestion "x" while a chip "x"
exists changes neither the store nor the cursor. -/
theorem spec_C9_witness :
    ((({ chips := [{ id := 0, value := "x" }], insertPosition := some 0,
         nextId := 1 } : CtrlState String).chips.any fun chip =>
        defaultCfg.isEqual (defaultCfg.normalize chip.value)
          (defaultCfg.normalize ({ id := 7, value := "x" } : Suggestion String).value))
      = true) ∧
    (handleSelectCombined defaultCfg
        ({ chips := [{ id := 0, value := "x" }], insertPosition := some 0,
           nextId := 1 } : CtrlState String)
        ({ suggestions := [{ id := 7, value := "x" }], isVisible := true,
           highlightedIndex := 0 } : SugState String)
        ({ id := 7, value := "x" } : Suggestion String)).2 = none :=
  ⟨by decide,
   (spec_C9_duplicate_selection_noop defaultCfg
      ({ chips := [{ id := 0, value := "x" }], insertPosition := some 0,
         nextId := 1 } : CtrlState String)
      ({ suggestions := [{ id := 7, value := "x" }], isVisible := true,
         highlightedIndex := 0 } : SugState String)
      ({ id := 7, value := "x" } : Suggestion String) (by decide)).1⟩

/-! ## Claim C10 -/

/-- Claim C10: with the dropdown visible and non-empty, Escape is
consumed by the suggestion engine — it closes the dropdown and clears
the highlight while leaving the insertion cursor untouched; whenever
the dropdown is visible the cursor survives Escape, and an Escape
with the dropdown hidden collapses the cursor to the at-end state. -/
theorem spec_C10_escape_frame {V : Type} (s : CtrlState V) (g : SugState V) :
    (g.isVisible = true → ¬ g.suggestions = [] →
      (escapeKeyDown s g).2.isVisible = false ∧
      (escapeKeyDown s g).2.highlightedIndex = -1 ∧
      (escapeKeyDown s g).1.insertPosition = s.insertPosition) ∧
    (g.isVisible = true → (escapeKeyDown s g).1.insertPosition = s.insertPosition) ∧
    (g.isVisible = false → (escapeKeyDown s g).1.insertPosition = none) := by
  refine ⟨?_, ?_, ?_⟩
  · intro hv hne
    unfold escapeKeyDown
    rw [if_pos]
    · exact ⟨rfl, rfl, rfl⟩
    · simp [hv, List.isEmpty_iff, hne]
  · intro hv
    unfold escapeKeyDown
    by_cases hne : g.suggestions.isEmpty
    · rw [if_neg, if_pos (by simp [hv])]
      · unfold handleEscapeKey
        rw [if_pos rfl]
      · simp [hne]
    · rw [if_pos (by simp [hv, hne])]
  · intro hv
    unfold escapeKeyDown
    rw [if_neg (by simp [hv]), if_neg (by simp [hv])]
    unfold handleEscapeKey
    rw [if_neg (by simp)]
    cases hp : s.insertPosition <;> simp [hp]

/-- Claim C10 witness: Escape over a visible, non-empty dropdown with
the cursor at gap 0 keeps the cursor and closes the dropdown. -/
theorem spec_C10_witness :
    (({ suggestions := [{ id := 1, value := "x" }], isVisible := true,
        highlightedIndex := 0 } : SugState String).isVisible = true) ∧
    (¬ ({ suggestions := [{ id := 1, value := "x" }], isVisible := true,
          highlightedIndex := 0 } : SugState String).suggestions = []) ∧
    (escapeKeyDown
        ({ chips := [{ id := 0, value := "a" }], insertPosition := some 0,
           nextId := 1 } : CtrlState String)
        ({ suggestions := [{ id := 1, value := "x" }], isVisible := true,
           highlightedIndex := 0 } : SugState String)).1.insertPosition = some 0 :=
  ⟨by decide, by decide,
   ((spec_C10_escape_frame
      ({ chips := [{ id := 0, value := "a" }], insertPosition := some 0,
         nextId := 1 } : CtrlState String)
      ({ suggestions := [{ id := 1, value := "x" }], isVisible := true,
         highlightedIndex := 0 } : SugState String)).1 (by decide) (by decide)).2.2⟩

/-! ## Claim C1 -/

/-- Claim C1 counterexample: committing the single multi-token input
"x,x" over an empty store emits two chips whose values are equal
under the configured (default) isEqual/normalize policy.  The chips
created from earlier tokens of the operation are not visible to the
duplicate check of later tokens: `createChip` consults only the store
as it was when the operation started. -/
theorem spec_C1_counterexample :
    ((addChipsFromInput defaultCfg ({ } : CtrlState String) "x,x").2.map
        fun l => l.map Chip.value) = some ["x", "x"] ∧
    defaultCfg.isEqual (defaultCfg.normalize "x") (defaultCfg.normalize "x") = true := by
  decide

/-- Every chip the collection loop of `addChipsFromInput` creates was
checked against the pre-existing store: its normalized value is
unequal to every pre-existing chip's. -/
theorem collectChips_not_dup_existing {V : Type} (cfg : ChipConfig V)
    (existing : List (Chip V)) (vals : List String) (nid : Nat) :
    ∀ c ∈ collectChips cfg existing nid vals, ∀ e ∈ existing,
      cfg.isEqual (cfg.normalize e.value) (cfg.normalize c.value) = false := by
  induction vals generalizing nid with
  | nil => intro c hc; cases hc
  | cons v rest ih =>
    intro c hc e he
    cases hcv : createChip cfg existing nid v with
    | none =>
      rw [collectChips, hcv] at hc
      exact ih nid c hc e he
    | some c0 =>
      rw [collectChips, hcv] at hc
      cases hc with
      | tail _ htail => exact ih (nid + 1) c htail e he
      | head =>
        cases hp : cfg.parseInput v with
        | none => simp only [createChip, hp] at hcv; cases hcv
        | some parsed =>
          simp only [createChip, hp] at hcv
          by_cases hd : (existing.any fun chip =>
              cfg.isEqual (cfg.normalize chip.value) (cfg.normalize parsed.value)) = true
          · rw [if_pos hd] at hcv; cases hcv
          · rw [if_neg hd] at hcv
            cases hcv
            have := List.any_eq_false.mp (Bool.eq_false_iff.mpr hd) e he
            simpa using this

/-- Claim C1 amended: candidate tokens of a multi-token commit are
validated and deduplicated sequentially in source order against the
store as it was at the start of the operation, so no chip the commit
creates is normalized-equal to a pre-existing chip; but chips created
from earlier tokens of the same operation are not visible to the
duplicate check of later tokens, so a single commit can produce two
chips whose normalized values are equal to each other. -/
theorem spec_C1_amended {V : Type} (cfg : ChipConfig V) (s : CtrlState V)
    (input : String) (c : Chip V)
    (hc : c ∈ collectChips cfg s.chips s.nextId (tokensOf cfg input))
    (e : Chip V) (he : e ∈ s.chips) :
    cfg.isEqual (cfg.normalize e.value) (cfg.normalize c.value) = false :=
  collectChips_not_dup_existing cfg s.chips (tokensOf cfg input) s.nextId c hc e he

/-- Claim C1 amended, witness: committing "x,y" against a store
holding "x" creates only the chip "y", and that chip is not
normalized-equal to the pre-existing "x". -/
theorem spec_C1_amended_witness :
    (({ id := 1, value := "y" } : Chip String) ∈
        collectChips defaultCfg [{ id := 0, value := "x" }] 1
          (tokensOf defaultCfg "x,y")) ∧
    (({ id := 0, value := "x" } : Chip String) ∈
        [({ id := 0, value := "x" } : Chip String)]) ∧
    defaultCfg.isEqual (defaultCfg.normalize "x") (defaultCfg.normalize "y") = false :=
  ⟨by decide, by decide,
   spec_C1_amended defaultCfg
     ({ chips := [{ id := 0, value := "x" }], nextId := 1 } : CtrlState String) "x,y"
     { id := 1, value := "y" } (by decide) { id := 0, value := "x" } (by decide)⟩

/-! ## Claim C4 -/

/-- JS `slice(0, e)` with a non-negative end is a `take`. -/
theorem jsSliceEnd_of_nonneg {α : Type} (l : List α) (e : Int) (h : 0 ≤ e) :
    jsSliceEnd l e = l.take e.toNat := by
  simp only [jsSliceEnd]
  rw [if_neg (by omega)]

/-- JS `slice(s)` with a non-negative start is a `drop`. -/
theorem jsSliceFrom_of_nonneg {α : Type} (l : List α) (e : Int) (h : 0 ≤ e) :
    jsSliceFrom l e = l.drop e.toNat := by
  simp only [jsSliceFrom]
  rw [if_neg (by omega)]

/-- A chip built by `createChip` carries the fresh id it was given. -/
theorem createChip_id {V : Type} (cfg : ChipConfig V) (existing : List (Chip V))
    (nid : Nat) (input : String) (c : Chip V)
    (h : createChip cfg existing nid input = some c) : c.id = nid := by
  cases hp : cfg.parseInput input with
  | none => simp only [createChip, hp] at h; cases h
  | some parsed =>
    simp only [createChip, hp] at h
    by_cases hd : (existing.any fun chip =>
        cfg.isEqual (cfg.normalize chip.value) (cfg.normalize parsed.value)) = true
    · rw [if_pos hd] at h; cases h
    · rw [if_neg hd] at h
      cases h
      rfl

/-- The ids of the chips one collection loop creates are exactly the
consecutive fresh ids starting at the loop's initial counter. -/
theorem collectChips_ids {V : Type} (cfg : ChipConfig V) (existing : List (Chip V))
    (vals : List String) (nid : Nat) :
    (collectChips cfg existing nid vals).map Chip.id
      = List.range' nid (collectChips cfg existing nid vals).length := by
  induction vals generalizing nid with
  | nil => rfl
  | cons v rest ih =>
    cases hcv : createChip cfg existing nid v with
    | none => rw [collectChips, hcv]; exact ih nid
    | some c0 =>
      rw [collectChips, hcv]
      have hid := createChip_id cfg existing nid v c0 hcv
      simp [List.range', ih (nid + 1), hid]

/-- Every chip the collection loop creates carries the value/label
pair parsed from one of the operation's candidate tokens. -/
theorem collectChips_parsed {V : Type} (cfg : ChipConfig V) (existing : List (Chip V))
    (vals : List String) (nid : Nat) :
    ∀ c ∈ collectChips cfg existing nid vals, ∃ tok ∈ vals,
      cfg.parseInput tok = some { value := c.value, label := c.label } := by
  induction vals generalizing nid with
  | nil => intro c hc; cases hc
  | cons v rest ih =>
    intro c hc
    cases hcv : createChip cfg existing nid v with
    | none =>
      rw [collectChips, hcv] at hc
      obtain ⟨tok, ht, hp⟩ := ih nid c hc
      exact ⟨tok, List.mem_cons_of_mem _ ht, hp⟩
    | some c0 =>
      rw [collectChips, hcv] at hc
      cases hc with
      | tail _ htail =>
        obtain ⟨tok, ht, hp⟩ := ih (nid + 1) c htail
        exact ⟨tok, List.mem_cons_of_mem _ ht, hp⟩
      | head =>
        refine ⟨v, List.mem_cons_self _ _, ?_⟩
        cases hp : cfg.parseInput v with
        | none => simp only [createChip, hp] at hcv; cases hcv
        | some parsed =>
          simp only [createChip, hp] at hcv
          by_cases hd : (existing.any fun chip =>
              cfg.isEqual (cfg.normalize chip.value) (cfg.normalize parsed.value)) = true
          · rw [if_pos hd] at hcv; cases hcv
          · rw [if_neg hd] at hcv
            cases hcv
            simp [hp]

/-- Claim C4: a commit of new chips at gap index g (or at the end of
the array when the cursor is null) emits the chip sequence
existing[0..g) ++ newChips ++ existing[g..end); when the cursor was
at a gap it afterwards equals g plus the number of chips inserted;
each new chip carries the value/label parsed from one of the commit's
candidate tokens and an id fresh with respect to the store, and the
new ids are pairwise distinct. -/
theorem spec_C4_insertion_algorithm {V : Type} (cfg : ChipConfig V) (s : CtrlState V)
    (input : String) (hwf : WF s)
    (hne : ¬ collectChips cfg s.chips s.nextId (tokensOf cfg input) = []) :
    (∀ g : Int, s.insertPosition = some g →
        (addChipsFromInput cfg s input).2
          = some (s.chips.take g.toNat
              ++ collectChips cfg s.chips s.nextId (tokensOf cfg input)
              ++ s.chips.drop g.toNat) ∧
        (addChipsFromInput cfg s input).1.insertPosition
          = some (g +
              ((collectChips cfg s.chips s.nextId (tokensOf cfg input)).length : Int))) ∧
    (s.insertPosition = none →
        (addChipsFromInput cfg s input).2
          = some (s.chips ++ collectChips cfg s.chips s.nextId (tokensOf cfg input)) ∧
        (addChipsFromInput cfg s input).1.insertPosition = none) ∧
    (∀ c ∈ collectChips cfg s.chips s.nextId (tokensOf cfg input),
        (∃ tok ∈ tokensOf cfg input,
            cfg.parseInput tok = some { value := c.value, label := c.label }) ∧
        ∀ e ∈ s.chips, ¬ c.id = e.id) ∧
    ((collectChips cfg s.chips s.nextId (tokensOf cfg input)).map Chip.id).Nodup := by
  have hpos : (collectChips cfg s.chips s.nextId (tokensOf cfg input)).length > 0 :=
    List.length_pos.mpr hne
  refine ⟨?_, ?_, ?_, ?_⟩
  · intro g hg
    have hgr : 0 ≤ g ∧ g ≤ (s.chips.length : Int) := by
      have h1 := hwf.1
      rw [hg] at h1
      unfold posOk at h1
      simpa using h1
    simp only [addChipsFromInput]
    rw [if_pos hpos, hg]
    refine ⟨?_, by simp⟩
    simp [jsSliceEnd_of_nonneg _ _ hgr.1, jsSliceFrom_of_nonneg _ _ hgr.1]
  · intro hg
    simp only [addChipsFromInput]
    rw [if_pos hpos, hg]
    refine ⟨?_, by simp⟩
    have h0 : (0 : Int) ≤ (s.chips.length : Int) := by positivity
    simp [jsSliceEnd_of_nonneg _ _ h0, jsSliceFrom_of_nonneg _ _ h0]
  · intro c hc
    refine ⟨collectChips_parsed cfg s.chips (tokensOf cfg input) s.nextId c hc, ?_⟩
    intro e he
    have hid : c.id ∈ List.range' s.nextId
        (collectChips cfg s.chips s.nextId (tokensOf cfg input)).length := by
      rw [← collectChips_ids]
      exact List.mem_map_of_mem _ hc
    have hbound := List.mem_range'_1.mp hid
    have hlt := hwf.2.2 e he
    omega
  · rw [collectChips_ids]
    exact List.nodup_range' _ _

/-- Claim C4 witness: the spec's scenario — three chips, gap index 1,
committing one token lands the new chip at array index 1 and the gap
becomes 2. -/
theorem spec_C4_witness :
    WF ({ chips := [{ id := 0, value := "a" }, { id := 1, value := "b" },
                    { id := 2, value := "c" }],
          insertPosition := some 1, nextId := 3 } : CtrlState String) ∧
    (¬ collectChips defaultCfg
        [{ id := 0, value := "a" }, { id := 1, value := "b" },
         { id := 2, value := "c" }] 3 (tokensOf defaultCfg "x") = []) ∧
    (addChipsFromInput defaultCfg
        ({ chips := [{ id := 0, value := "a" }, { id := 1, value := "b" },
                     { id := 2, value := "c" }],
           insertPosition := some 1, nextId := 3 } : CtrlState String) "x").1.insertPosition
      = some (1 +
          ((collectChips defaultCfg
            [{ id := 0, value := "a" }, { id := 1, value := "b" },
             { id := 2, value := "c" }] 3 (tokensOf defaultCfg "x")).length : Int)) :=
  ⟨by decide, by decide,
   ((spec_C4_insertion_algorithm defaultCfg
      ({ chips := [{ id := 0, value := "a" }, { id := 1, value := "b" },
                   { id := 2, value := "c" }],
         insertPosition := some 1, nextId := 3 } : CtrlState String) "x"
      (by decide) (by decide)).1 1 rfl).2⟩

/-! ## Claim C7 -/

/-- A prefix of a list whose `dropWhile` is trivial also has a
trivial `dropWhile`. -/
theorem dropWhile_of_isPrefix {α : Type} (p : α → Bool) (t m : List α) (hp : t <+: m)
    (hm : List.dropWhile p m = m) : List.dropWhile p t = t := by
  cases t with
  | nil => rfl
  | cons a t' =>
    cases m with
    | nil =>
      obtain ⟨r, hr⟩ := hp
      simp at hr
    | cons b m' =>
      have hab : a = b := by
        obtain ⟨r, hr⟩ := hp
        cases hr
        rfl
      rw [List.dropWhile_cons] at hm ⊢
      by_cases hpb : p b = true
      · rw [if_pos hpb] at hm
        have hlen := congrArg List.length hm
        have hle := (List.dropWhile_suffix (l := m') p).length_le
        simp at hlen
        omega
      · rw [hab, if_neg hpb]

/-- The source's trim is idempotent. -/
theorem trimChars_idem (l : List Char) : trimChars (trimChars l) = trimChars l := by
  show List.rdropWhile isWS (List.dropWhile isWS
      (List.rdropWhile isWS (List.dropWhile isWS l)))
    = List.rdropWhile isWS (List.dropWhile isWS l)
  have hpre := List.rdropWhile_prefix isWS (List.dropWhile isWS l)
  rw [dropWhile_of_isPrefix isWS _ _ hpre (List.dropWhile_idempotent _ _),
    List.rdropWhile_idempotent]

/-- Splitting with pointwise-equal character predicates agrees. -/
theorem splitCharsAux_congr (p q : Char → Bool) (h : ∀ c, p c = q c) :
    ∀ (l acc : List Char), splitCharsAux p l acc = splitCharsAux q l acc := by
  intro l
  induction l with
  | nil => intro acc; rfl
  | cons c t ih =>
    intro acc
    simp only [splitCharsAux, h c]
    split <;> simp [ih]

/-- Data of a string join is the concatenation of the data. -/
theorem data_foldl_append (ls : List String) (acc : String) :
    (ls.foldl (fun r s => r ++ s) acc).data = acc.data ++ ls.flatMap String.data := by
  induction ls generalizing acc with
  | nil => simp
  | cons a ls ih => simp [ih, String.data_append]

/-- Data of `String.join`. -/
theorem data_join (ls : List String) :
    (String.join ls).data = ls.flatMap String.data := by
  show (ls.foldl (fun r s => r ++ s) "").data = ls.flatMap String.data
  rw [data_foldl_append]
  rfl

/-- Parsing the class body contributed by one escaped single
character (other than a dash) yields a literal item for it. -/
theorem classItems_escape_cons (c : Char) (rest : List Char) (hc : ¬ c = '-') :
    classItems (escapeRegexChar c ++ rest) = ClassItem.lit c :: classItems rest := by
  unfold escapeRegexChar
  by_cases hm : regexMetaChars.contains c = true
  · rw [if_pos hm]
    cases rest <;> simp [classItems]
  · rw [if_neg hm]
    have hcb : ¬ c = '\\' := by
      intro h
      exact hm (by rw [h]; decide)
    cases rest <;> simp [classItems, hcb, hc]

/-- With single-character delimiters none of which is a dash, the
class body built from the escaped delimiters parses into exactly the
literal items of the delimiter characters. -/
theorem classItems_join (dels : List String)
    (h : ∀ d ∈ dels, d.data.length = 1 ∧ ¬ d = "-") :
    classItems ((dels.map escapeRegex).flatMap String.data)
      = (dels.flatMap String.data).map ClassItem.lit := by
  induction dels with
  | nil => rfl
  | cons d rest ih =>
    obtain ⟨hd1, hd2⟩ := h d (by simp)
    obtain ⟨c, hc⟩ : ∃ c, d.data = [c] := by
      cases hdd : d.data with
      | nil => rw [hdd] at hd1; cases hd1
      | cons a t =>
        rw [hdd] at hd1
        cases t with
        | nil => exact ⟨a, rfl⟩
        | cons b t' => simp at hd1
    have hcd : ¬ c = '-' := by
      intro h'
      apply hd2
      apply String.ext
      rw [hc, h']
    have hed : (escapeRegex d).data = escapeRegexChar c := by
      simp [escapeRegex, hc]
    simp only [List.map_cons, List.flatMap_cons, hed, hc]
    rw [classItems_escape_cons c _ hcd, ih fun x hx => h x (by simp [hx])]
    simp

/-- Matching a class consisting only of literal items is membership
among their characters. -/
theorem classMatches_map_lit (cs : List Char) (ch : Char) :
    classMatches (cs.map ClassItem.lit) ch = cs.any fun x => ch = x := by
  induction cs with
  | nil => rfl
  | cons c rest ih =>
    cases rest with
    | nil => simp [classMatches]
    | cons c2 rest2 =>
      simp only [List.map_cons] at ih ⊢
      have hstep : classMatches
          (ClassItem.lit c :: ClassItem.lit c2 :: List.map ClassItem.lit rest2) ch
          = (decide (ch = c)
              || classMatches (ClassItem.lit c2 :: List.map ClassItem.lit rest2) ch) :=
        rfl
      rw [hstep, ih]
      simp [List.any_cons]

/-- Under the amended hypotheses, the split pattern the source builds
matches exactly the delimiter characters. -/
theorem splitPattern_eq_memberOf (dels : List String)
    (h : ∀ d ∈ dels, d.data.length = 1 ∧ ¬ d = "-") (ch : Char) :
    splitPattern dels ch = (dels.any fun d => d.data = [ch]) := by
  unfold splitPattern
  rw [data_join, classItems_join dels h, classMatches_map_lit]
  rw [Bool.eq_iff_iff]
  simp only [List.any_eq_true, List.mem_flatMap, decide_eq_true_eq]
  constructor
  · rintro ⟨x, ⟨d, hd, hx⟩, hcx⟩
    obtain ⟨hd1, _⟩ := h d hd
    obtain ⟨c, hc⟩ : ∃ c, d.data = [c] := by
      cases hdd : d.data with
      | nil => rw [hdd] at hd1; cases hd1
      | cons a t =>
        rw [hdd] at hd1
        cases t with
        | nil => exact ⟨a, rfl⟩
        | cons b t' => simp at hd1
    refine ⟨d, hd, ?_⟩
    rw [hc] at hx ⊢
    simp only [List.mem_singleton] at hx
    rw [hcx, hx]
  · rintro ⟨d, hd, hdc⟩
    exact ⟨ch, ⟨d, hd, by rw [hdc]; simp⟩, rfl⟩

/-- Claim C7 counterexample: with the configured delimiter set
{",", "-", ";"} the built character class is [,-;], in which the
unescaped dash forms the code-point range from comma to semicolon;
the input "a.b" contains no delimiter occurrence at all, yet it is
split at the dot (which lies inside that range) instead of being
returned whole. -/
theorem spec_C7_counterexample :
    splitByDelimiters "a.b" [",", "-", ";"] = ["a", "b"] ∧
    containsDelimiter "a.b" [",", "-", ";"] = false ∧
    ¬ splitByDelimiters "a.b" [",", "-", ";"] = ["a.b"] := by
  decide

/-- Claim C7 amended: for delimiter sets of single-character
delimiters none of which is "-", `splitByDelimiters` returns exactly
the trimmed non-empty segments of the input split at occurrences of
the delimiter characters, in order (the regex metacharacters among
them being escaped and hence matched literally); every returned
segment is non-empty and carries no surrounding whitespace.  A "-"
delimiter can fuse with its neighbours into a character-class range
(and a multi-character delimiter is split into its individual
characters), making the pattern match characters that are not
delimiters. -/
theorem spec_C7_amended (input : String) (dels : List String)
    (h : ∀ d ∈ dels, d.data.length = 1 ∧ ¬ d = "-") :
    splitByDelimiters input dels = splitSpec input dels ∧
    ∀ x ∈ splitByDelimiters input dels, ¬ x = "" ∧ trimS x = x := by
  constructor
  · unfold splitByDelimiters splitSpec splitChars
    rw [splitCharsAux_congr (splitPattern dels)
      (fun c => dels.any fun d => d.data = [c]) (splitPattern_eq_memberOf dels h)]
  · intro x hx
    unfold splitByDelimiters at hx
    rw [List.mem_filter] at hx
    obtain ⟨hmem, hlen⟩ := hx
    rw [List.mem_map] at hmem
    obtain ⟨seg, hseg, rfl⟩ := hmem
    constructor
    · intro h0
      rw [h0] at hlen
      simp at hlen
    · show (⟨trimChars (trimChars seg)⟩ : String) = ⟨trimChars seg⟩
      rw [trimChars_idem]

/-- Claim C7 amended, witness: the source's own doc example. -/
theorem spec_C7_witness :
    (∀ d ∈ [",", ";"], d.data.length = 1 ∧ ¬ d = "-") ∧
    splitByDelimiters "a, b; c" [",", ";"] = splitSpec "a, b; c" [",", ";"] :=
  ⟨by decide, (spec_C7_amended "a, b; c" [",", ";"] (by decide)).1⟩

/-! ## Claim C3: helper lemmas -/

/-- The null cursor is always in range. -/
theorem posOk_none {n : Nat} : posOk none n = true := rfl

/-- Range condition of a non-null cursor, unfolded. -/
theorem posOk_some {p : Int} {n : Nat} :
    posOk (some p) n = true ↔ 0 ≤ p ∧ p ≤ (n : Int) := by
  unfold posOk
  simp

/-- Updating only the cursor of a well-formed state keeps it
well-formed when the new cursor is in range. -/
theorem WF_setPos {V : Type} (s : CtrlState V) (x : Option Int) (hwf : WF s)
    (hx : posOk x s.chips.length = true) : WF { s with insertPosition := x } :=
  ⟨hx, hwf.2.1, hwf.2.2⟩

/-- A `findIndex` result other than the sentinel -1 is an index into
the array. -/
theorem jsFindIndex_bounds {α : Type} (p : α → Bool) (l : List α)
    (h : ¬ jsFindIndex p l = -1) :
    0 ≤ jsFindIndex p l ∧ jsFindIndex p l < (l.length : Int) := by
  induction l with
  | nil => simp [jsFindIndex] at h
  | cons a t ih =>
    by_cases hpa : p a = true
    · simp [jsFindIndex, hpa]
    · simp only [jsFindIndex, hpa] at h ⊢
      simp only [Bool.false_eq_true, if_false] at h ⊢
      by_cases hr : jsFindIndex p t < 0
      · rw [if_pos hr] at h
        exact absurd rfl h
      · rw [if_neg hr] at h ⊢
        have hb := ih (by intro he; rw [he] at hr; omega)
        simp only [List.length_cons]
        omega

/-- Removing one chip (found in a store with pairwise-distinct ids)
by filtering on its id shortens the store by exactly one. -/
theorem filter_ne_id_length {V : Type} (l : List (Chip V)) (x : Chip V)
    (hn : (l.map Chip.id).Nodup) (hx : x ∈ l) :
    (l.filter fun c => c.id ≠ x.id).length = l.length - 1 := by
  induction l with
  | nil => cases hx
  | cons a t ih =>
    rw [List.map_cons, List.nodup_cons] at hn
    cases hx with
    | head =>
      rw [List.filter_cons]
      have hfa : (decide (x.id ≠ x.id)) = false := by simp
      rw [hfa]
      simp only [Bool.false_eq_true, if_false]
      have ht : t.filter (fun c => c.id ≠ x.id) = t := by
        rw [List.filter_eq_self]
        intro c hc
        simp only [decide_eq_true_eq, ne_eq]
        intro he
        exact hn.1 (he ▸ List.mem_map_of_mem Chip.id hc)
      rw [ht]
      simp
    | tail _ hxt =>
      rw [List.filter_cons]
      have ha : (decide (a.id ≠ x.id)) = true := by
        simp only [decide_eq_true_eq, ne_eq]
        intro he
        exact hn.1 (he ▸ List.mem_map_of_mem Chip.id hxt)
      rw [ha]
      simp only [if_true]
      have hpos : 0 < t.length := List.length_pos.mpr (List.ne_nil_of_mem hxt)
      rw [List.length_cons, ih hn.2 hxt, List.length_cons]
      omega

/-- Splicing chips with consecutive fresh ids at the cursor preserves
well-formedness: the cursor is shifted by the number of chips
inserted and stays in range, the new ids are distinct from each other
and from all existing ids, and the fresh counter moves past them. -/
theorem WF_splice {V : Type} (s : CtrlState V) (newChips : List (Chip V)) (iv : String)
    (hwf : WF s)
    (hids : newChips.map Chip.id = List.range' s.nextId newChips.length) :
    WF { chips := jsSliceEnd s.chips (s.insertPosition.getD (s.chips.length : Int))
           ++ newChips
           ++ jsSliceFrom s.chips (s.insertPosition.getD (s.chips.length : Int)),
         insertPosition := s.insertPosition.map fun p => p + (newChips.length : Int),
         inputValue := iv,
         nextId := s.nextId + newChips.length } := by
  have hg : 0 ≤ s.insertPosition.getD (s.chips.length : Int) ∧
      s.insertPosition.getD (s.chips.length : Int) ≤ (s.chips.length : Int) := by
    cases hp : s.insertPosition with
    | none => simp
    | some p =>
      have h1 := hwf.1
      rw [hp, posOk_some] at h1
      simpa using h1
  rw [jsSliceEnd_of_nonneg _ _ hg.1, jsSliceFrom_of_nonneg _ _ hg.1]
  have ht : (s.insertPosition.getD (s.chips.length : Int)).toNat ≤ s.chips.length :=
    Int.toNat_le.mpr hg.2
  have hlen : (s.chips.take (s.insertPosition.getD (s.chips.length : Int)).toNat
      ++ newChips
      ++ s.chips.drop (s.insertPosition.getD (s.chips.length : Int)).toNat).length
      = s.chips.length + newChips.length := by
    simp only [List.length_append, List.length_take, List.length_drop]
    omega
  have hA : ∀ x ∈ (s.chips.take
      (s.insertPosition.getD (s.chips.length : Int)).toNat).map Chip.id,
      x < s.nextId := by
    intro x hx
    rw [List.mem_map] at hx
    obtain ⟨c, hc, rfl⟩ := hx
    exact hwf.2.2 c ((List.take_sublist _ _).subset hc)
  have hD : ∀ x ∈ (s.chips.drop
      (s.insertPosition.getD (s.chips.length : Int)).toNat).map Chip.id,
      x < s.nextId := by
    intro x hx
    rw [List.mem_map] at hx
    obtain ⟨c, hc, rfl⟩ := hx
    exact hwf.2.2 c ((List.drop_sublist _ _).subset hc)
  have hN : ∀ x ∈ newChips.map Chip.id,
      s.nextId ≤ x ∧ x < s.nextId + newChips.length := by
    intro x hx
    rw [hids] at hx
    exact List.mem_range'_1.mp hx
  refine ⟨?_, ?_, ?_⟩
  · cases hp : s.insertPosition with
    | none => exact posOk_none
    | some p =>
      have h1 := hwf.1
      rw [hp, posOk_some] at h1
      show posOk (some (p + (newChips.length : Int)))
          ((s.chips.take p.toNat ++ newChips ++ s.chips.drop p.toNat).length) = true
      rw [posOk_some]
      have hlen2 : (s.chips.take p.toNat ++ newChips ++ s.chips.drop p.toNat).length
          = s.chips.length + newChips.length := by
        simp only [List.length_append, List.length_take, List.length_drop]
        have hptn : p.toNat ≤ s.chips.length := Int.toNat_le.mpr h1.2
        omega
      rw [hlen2]
      constructor
      · omega
      · push_cast
        omega
  · have hAD : ((s.chips.take (s.insertPosition.getD (s.chips.length : Int)).toNat
        ++ s.chips.drop (s.insertPosition.getD (s.chips.length : Int)).toNat).map
          Chip.id).Nodup := by
      rw [List.take_append_drop]
      exact hwf.2.1
    rw [List.map_append] at hAD
    rw [List.nodup_append] at hAD
    obtain ⟨hAn, hDn, hADdis⟩ := hAD
    have hNn : (newChips.map Chip.id).Nodup := by
      rw [hids]
      exact List.nodup_range' _ _
    simp only [List.map_append]
    rw [List.nodup_append, List.nodup_append]
    refine ⟨⟨hAn, hNn, ?_⟩, hDn, ?_⟩
    · intro x hxA hxN
      have h1 := hA x hxA
      have h2 := (hN x hxN).1
      omega
    · intro x hx hxD
      rw [List.mem_append] at hx
      cases hx with
      | inl hxA => exact hADdis hxA hxD
      | inr hxN =>
        have h1 := (hN x hxN).1
        have h2 := hD x hxD
        omega
  · intro c hc
    show c.id < s.nextId + newChips.length
    simp only [List.mem_append] at hc
    rcases hc with (hc | hc) | hc
    · have := hwf.2.2 c ((List.take_sublist _ _).subset hc)
      omega
    · have := (hN c.id (List.mem_map_of_mem Chip.id hc)).2
      omega
    · have := hwf.2.2 c ((List.drop_sublist _ _).subset hc)
      omega

/-- An element found by indexed lookup is a member of the list. -/
theorem mem_of_getElem_opt {α : Type} {l : List α} {i : Nat} {a : α}
    (h : l[i]? = some a) : a ∈ l := by
  obtain ⟨hi, rfl⟩ := List.getElem?_eq_some.mp h
  exact List.getElem_mem hi

/-- The commit path preserves well-formedness. -/
theorem WF_addChipsFromInput {V : Type} (cfg : ChipConfig V) (s : CtrlState V)
    (input : String) (hwf : WF s) : WF (addChipsFromInput cfg s input).1 := by
  simp only [addChipsFromInput]
  by_cases hpos : (collectChips cfg s.chips s.nextId (tokensOf cfg input)).length > 0
  · rw [if_pos hpos]
    exact WF_splice s _ "" hwf (collectChips_ids cfg s.chips (tokensOf cfg input) s.nextId)
  · rw [if_neg hpos]
    exact ⟨hwf.1, hwf.2.1, hwf.2.2⟩

/-- The suggestion-selection path preserves well-formedness. -/
theorem WF_processSuggestionSelection {V : Type} (cfg : ChipConfig V) (s : CtrlState V)
    (sug : Suggestion V) (hwf : WF s) : WF (processSuggestionSelection cfg s sug).1 := by
  simp only [processSuggestionSelection]
  by_cases hdup : (s.chips.any fun chip =>
      cfg.isEqual (cfg.normalize chip.value) (cfg.normalize sug.value)) = true
  · rw [if_pos hdup]
    exact ⟨hwf.1, hwf.2.1, hwf.2.2⟩
  · rw [if_neg hdup]
    refine WF_splice s _ "" hwf ?_
    simp [List.range']

/-- ArrowLeft preserves well-formedness. -/
theorem WF_handleArrowLeftKey {V : Type} (s : CtrlState V) (b : Bool) (hwf : WF s) :
    WF (handleArrowLeftKey s b) := by
  unfold handleArrowLeftKey
  by_cases hcond : (!b || s.chips.isEmpty) = true
  · rw [if_pos hcond]
    exact hwf
  · rw [if_neg hcond]
    have hlen : 0 < s.chips.length := by
      cases hc : s.chips with
      | nil => exact absurd (by simp [hc]) hcond
      | cons a t => simp [hc]
    apply WF_setPos s _ hwf
    cases hp : s.insertPosition with
    | none =>
      simp only [computeLeftPosition]
      rw [posOk_some]
      constructor <;> omega
    | some p =>
      have h1 := hwf.1
      rw [hp, posOk_some] at h1
      simp only [computeLeftPosition]
      by_cases hpp : p > 0
      · rw [if_pos hpp, posOk_some]
        constructor <;> omega
      · rw [if_neg hpp, posOk_some]
        constructor <;> omega

/-- ArrowRight preserves well-formedness. -/
theorem WF_handleArrowRightKey {V : Type} (s : CtrlState V) (b : Bool) (hwf : WF s) :
    WF (handleArrowRightKey s b) := by
  unfold handleArrowRightKey
  split
  · exact hwf
  · next p hp =>
    split
    · exact hwf
    · apply WF_setPos s _ hwf
      have h1 := hwf.1
      rw [hp, posOk_some] at h1
      unfold computeRightPosition
      split
      · rw [posOk_some]
        constructor <;> omega
      · exact posOk_none

/-- Backspace-at-start preserves well-formedness: the deleted chip is
the one before the cursor and the cursor is decremented into range. -/
theorem WF_handleBackspaceKey {V : Type} (s : CtrlState V) (b : Bool) (hwf : WF s) :
    WF (handleBackspaceKey s b).1 := by
  simp only [handleBackspaceKey]
  split
  · exact hwf
  · cases hp : s.insertPosition with
    | none =>
      split
      · split
        · exact hwf
        · next chipToDelete hget =>
          have hmem : chipToDelete ∈ s.chips := mem_of_getElem_opt hget
          refine ⟨?_, ?_, ?_⟩
          · show posOk s.insertPosition
                (s.chips.filter fun chip => chip.id ≠ chipToDelete.id).length = true
            rw [hp]
            exact posOk_none
          · exact hwf.2.1.sublist ((List.filter_sublist _).map Chip.id)
          · intro c hc
            exact hwf.2.2 c ((List.filter_sublist _).subset hc)
      · exact hwf
    | some p =>
      split
      · next hge =>
        split
        · exact hwf
        · next chipToDelete hget =>
          have hmem : chipToDelete ∈ s.chips := mem_of_getElem_opt hget
          have hge' : p - 1 ≥ 0 := hge
          have hp0 : p > 0 := by omega
          have hlen1 : (s.chips.filter fun c => c.id ≠ chipToDelete.id).length
              = s.chips.length - 1 :=
            filter_ne_id_length s.chips chipToDelete hwf.2.1 hmem
          have h1 := hwf.1
          rw [hp, posOk_some] at h1
          have hlenpos : 0 < s.chips.length :=
            List.length_pos.mpr (List.ne_nil_of_mem hmem)
          show WF (if p > 0
              then { (handleChipDelete s chipToDelete.id).1 with
                      insertPosition := some (p - 1) }
              else (handleChipDelete s chipToDelete.id).1)
          rw [if_pos hp0]
          refine ⟨?_, ?_, ?_⟩
          · show posOk (some (p - 1))
              (s.chips.filter fun chip => chip.id ≠ chipToDelete.id).length = true
            rw [posOk_some, hlen1]
            constructor
            · omega
            · omega
          · exact hwf.2.1.sublist ((List.filter_sublist _).map Chip.id)
          · intro c hc
            exact hwf.2.2 c ((List.filter_sublist _).subset hc)
      · exact hwf

/-- Enter/Tab commit preserves well-formedness. -/
theorem WF_handleSubmitKey {V : Type} (cfg : ChipConfig V) (s : CtrlState V)
    (hwf : WF s) : WF (handleSubmitKey cfg s).1 := by
  unfold handleSubmitKey
  split
  · exact hwf
  · exact WF_addChipsFromInput cfg s s.inputValue hwf

/-- Escape preserves well-formedness. -/
theorem WF_handleEscapeKey {V : Type} (s : CtrlState V) (v : Bool) (hwf : WF s) :
    WF (handleEscapeKey s v) := by
  unfold handleEscapeKey
  split
  · exact hwf
  · split
    · exact hwf
    · exact WF_setPos s none hwf posOk_none

/-- A delimiter keystroke commit preserves well-formedness. -/
theorem WF_handleDelimiterKey {V : Type} (cfg : ChipConfig V) (s : CtrlState V)
    (key : String) (hwf : WF s) : WF (handleDelimiterKey cfg s key).1 := by
  unfold handleDelimiterKey
  split
  · exact hwf
  · exact WF_addChipsFromInput cfg s s.inputValue hwf

/-- A chip click preserves well-formedness (the clicked index is in
range). -/
theorem WF_handleChipClick {V : Type} (s : CtrlState V) (cid : Nat) (hwf : WF s) :
    WF (handleChipClick s cid) := by
  simp only [handleChipClick]
  split
  · next hcond =>
    apply WF_setPos s _ hwf
    have hb := jsFindIndex_bounds (fun chip => chip.id = cid) s.chips hcond
    rw [posOk_some]
    constructor <;> omega
  · exact hwf

/-- A container click preserves well-formedness. -/
theorem WF_handleContainerClick {V : Type} (s : CtrlState V) (b : Bool) (hwf : WF s) :
    WF (handleContainerClick s b) := by
  unfold handleContainerClick
  split
  · exact WF_setPos s none hwf posOk_none
  · exact hwf

/-- A text change preserves well-formedness. -/
theorem WF_handleInputChange {V : Type} (cfg : ChipConfig V) (s : CtrlState V)
    (t : String) (hwf : WF s) : WF (handleInputChange cfg s t).1 := by
  unfold handleInputChange
  split
  · exact WF_addChipsFromInput cfg s t hwf
  · exact ⟨hwf.1, hwf.2.1, hwf.2.2⟩

/-- A paste preserves well-formedness. -/
theorem WF_handlePaste {V : Type} (cfg : ChipConfig V) (s : CtrlState V)
    (t : String) (hwf : WF s) : WF (handlePaste cfg s t).1 := by
  simp only [handlePaste]
  split
  · split
    · exact WF_addChipsFromInput cfg s _ hwf
    · exact hwf
  · exact hwf

/-- A blur preserves well-formedness. -/
theorem WF_handleBlur {V : Type} (cfg : ChipConfig V) (s : CtrlState V)
    (a b : Bool) (hwf : WF s) : WF (handleBlur cfg s a b).1 := by
  unfold handleBlur
  split
  · exact hwf
  · split
    · exact WF_addChipsFromInput cfg s s.inputValue hwf
    · exact hwf

/-! ## Claim C3 -/

/-- Claim C3 counterexample: from an empty store, commit "a" and "b",
click the second chip (gap index 1), then delete both chips through
their delete controls; the final state has no chips but still an
insertion cursor of 1, which is outside the range [0, 0] — the
delete-control path neither clamps nor clears the cursor. -/
theorem spec_C3_counterexample :
    (ctrlRun defaultCfg ({ } : CtrlState String)
        [CtrlEvent.inputChange "a", CtrlEvent.submitKey,
         CtrlEvent.inputChange "b", CtrlEvent.submitKey,
         CtrlEvent.chipClick 1, CtrlEvent.chipDelete 0,
         CtrlEvent.chipDelete 1]).chips = [] ∧
    (ctrlRun defaultCfg ({ } : CtrlState String)
        [CtrlEvent.inputChange "a", CtrlEvent.submitKey,
         CtrlEvent.inputChange "b", CtrlEvent.submitKey,
         CtrlEvent.chipClick 1, CtrlEvent.chipDelete 0,
         CtrlEvent.chipDelete 1]).insertPosition = some 1 ∧
    posOk (some 1) 0 = false := by
  decide

/-- Claim C3 amended: every controller operation except chip deletion
through the delete control preserves the cursor invariant — the
insertion cursor stays null or in [0, chips.length], splices shift it
to the same logical gap, and the backspace deletion path clamps it —
but `handleChipDelete` (the chip delete control) always leaves
`insertPosition` unchanged, so it neither shifts nor clamps nor
clears the cursor. -/
theorem spec_C3_amended {V : Type} (cfg : ChipConfig V) (s : CtrlState V)
    (ev : CtrlEvent V) (hwf : WF s) :
    ((∀ cid, ¬ ev = CtrlEvent.chipDelete cid) → WF (ctrlStep cfg s ev).1) ∧
    (∀ cid, (ctrlStep cfg s (CtrlEvent.chipDelete cid)).1.insertPosition
      = s.insertPosition) := by
  constructor
  · intro hne
    cases ev with
    | arrowLeft b => exact WF_handleArrowLeftKey s b hwf
    | arrowRight b => exact WF_handleArrowRightKey s b hwf
    | backspace b => exact WF_handleBackspaceKey s b hwf
    | submitKey => exact WF_handleSubmitKey cfg s hwf
    | escapeKey v => exact WF_handleEscapeKey s v hwf
    | delimiterKey k => exact WF_handleDelimiterKey cfg s k hwf
    | chipClick cid => exact WF_handleChipClick s cid hwf
    | chipDelete cid => exact absurd rfl (hne cid)
    | containerClick b => exact WF_handleContainerClick s b hwf
    | suggestionSelect sug => exact WF_processSuggestionSelection cfg s sug hwf
    | inputChange t => exact WF_handleInputChange cfg s t hwf
    | pasteEv t => exact WF_handlePaste cfg s t hwf
    | blurEv a b => exact WF_handleBlur cfg s a b hwf
  · intro cid
    rfl

/-- Claim C3 amended, witness: a container click over a well-formed
two-chip state keeps the state well-formed. -/
theorem spec_C3_amended_witness :
    WF ({ chips := [{ id := 0, value := "a" }, { id := 1, value := "b" }],
          insertPosition := some 1, nextId := 2 } : CtrlState String) ∧
    WF (ctrlStep defaultCfg
        ({ chips := [{ id := 0, value := "a" }, { id := 1, value := "b" }],
           insertPosition := some 1, nextId := 2 } : CtrlState String)
        (CtrlEvent.containerClick true)).1 :=
  ⟨by decide,
   (spec_C3_amended defaultCfg
      ({ chips := [{ id := 0, value := "a" }, { id := 1, value := "b" }],
         insertPosition := some 1, nextId := 2 } : CtrlState String)
      (CtrlEvent.containerClick true) (by decide)).1
     fun cid h => nomatch h⟩

end ChipInput
